import Mathlib

/-!
Verification development for the Hunter trading bot (analysis.py, config.py,
database.py, execution.py, main.py). Prices, indicator values and PnL are
modelled as rationals (Bollinger bands, which take a square root, as reals);
wall-clock time is a rational number of hours. Python dicts keyed by symbol
are modelled as association lists with unique keys, and fallible calls
return `Option`.
-/

/- ── config.py constants ─────────────────────────────────────── -/

def ADX_PERIOD : ℕ := 14
def ADX_THRESHOLD : ℚ := 25
def RSI_PERIOD : ℕ := 14
def RSI_OVERSOLD : ℚ := 30
def BB_PERIOD : ℕ := 20
def BB_STD : ℝ := 2
def LS_RATIO_THRESHOLD : ℚ := 4/5
def WHALE_NET_VOL_MIN : ℚ := 0
def MAX_CONSECUTIVE_LOSSES : ℕ := 3
def COOLDOWN_HOURS : ℚ := 24
def TRADE_SIZE_USD : ℚ := 100
def INITIAL_BALANCE_USD : ℚ := 10000
def NEWS_OVERRIDE_RSI : Bool := true

/- ── analysis.py : generate_signal ───────────────────────────── -/

/-- analysis.py `generate_signal(rsi, ls_ratio, whale_net_vol, regime)`.
The function takes exactly these four parameters; it has no sentiment
parameter and reads no news-related configuration. -/
def generate_signal (rsi lsr whale_vol : ℚ) (regime : String) : String :=
  if 70 < rsi then "SELL"
  else if regime ≠ "TRENDING" then "HOLD"
  else if rsi < RSI_OVERSOLD ∧ lsr < LS_RATIO_THRESHOLD ∧ WHALE_NET_VOL_MIN < whale_vol then
    "BUY"
  else "HOLD"

/-- main.py line 238 evaluates `generate_signal(rsi, ls_ratio, whale_vol,
regime, sentiment)` — five arguments against a four-parameter function —
so the call raises `TypeError` before any signal is produced. The call
site is therefore modelled as always failing. -/
def generate_signal_call_site (_rsi _lsr _whale_vol : ℚ)
    (_regime _sentiment : String) : Option String :=
  none

/- ── analysis.py : get_market_regime ─────────────────────────── -/

/-- analysis.py `get_market_regime(adx_value)`. -/
def get_market_regime (adx_value : ℚ) : String :=
  if ADX_THRESHOLD ≤ adx_value then "TRENDING" else "CHOPPY"

/- ── C1 ──────────────────────────────────────────────────────── -/

/-- C1: `generate_signal` is pure and total and evaluates its rules in a
fixed priority order: it returns SELL iff rsi > 70 (regardless of regime,
ls ratio or whale volume); otherwise, if the regime is not TRENDING it
returns HOLD; otherwise it returns BUY iff rsi < 30 and the long/short
ratio is < 0.8 and the whale net volume is > 0; in every remaining case it
returns HOLD, and no other output is possible. -/
theorem generate_signal_priority_order (rsi lsr whale_vol : ℚ) (regime : String) :
    (generate_signal rsi lsr whale_vol regime = "SELL" ↔ 70 < rsi) ∧
    (rsi ≤ 70 → regime ≠ "TRENDING" →
      generate_signal rsi lsr whale_vol regime = "HOLD") ∧
    (rsi ≤ 70 → regime = "TRENDING" →
      (generate_signal rsi lsr whale_vol regime = "BUY" ↔
        rsi < 30 ∧ lsr < 4/5 ∧ 0 < whale_vol)) ∧
    (rsi ≤ 70 → regime = "TRENDING" → ¬(rsi < 30 ∧ lsr < 4/5 ∧ 0 < whale_vol) →
      generate_signal rsi lsr whale_vol regime = "HOLD") ∧
    (generate_signal rsi lsr whale_vol regime = "SELL" ∨
     generate_signal rsi lsr whale_vol regime = "HOLD" ∨
     generate_signal rsi lsr whale_vol regime = "BUY") := by
  unfold generate_signal RSI_OVERSOLD LS_RATIO_THRESHOLD WHALE_NET_VOL_MIN
  split_ifs with h1 h2 h3 <;>
    refine ⟨?_, ?_, ?_, ?_, ?_⟩ <;>
    simp_all

/-- Witness for C1 at rsi = 25, ls = 3/5, whale = 100, regime TRENDING. -/
theorem generate_signal_priority_order_witness :
    (generate_signal 25 (3/5) 100 "TRENDING" = "SELL" ↔ (70:ℚ) < 25) ∧
    ((25:ℚ) ≤ 70 → "TRENDING" ≠ "TRENDING" →
      generate_signal 25 (3/5) 100 "TRENDING" = "HOLD") ∧
    ((25:ℚ) ≤ 70 → "TRENDING" = "TRENDING" →
      (generate_signal 25 (3/5) 100 "TRENDING" = "BUY" ↔
        (25:ℚ) < 30 ∧ (3/5:ℚ) < 4/5 ∧ (0:ℚ) < 100)) ∧
    ((25:ℚ) ≤ 70 → "TRENDING" = "TRENDING" →
      ¬((25:ℚ) < 30 ∧ (3/5:ℚ) < 4/5 ∧ (0:ℚ) < 100) →
      generate_signal 25 (3/5) 100 "TRENDING" = "HOLD") ∧
    (generate_signal 25 (3/5) 100 "TRENDING" = "SELL" ∨
     generate_signal 25 (3/5) 100 "TRENDING" = "HOLD" ∨
     generate_signal 25 (3/5) 100 "TRENDING" = "BUY") :=
  generate_signal_priority_order 25 (3/5) 100 "TRENDING"

/- ── C2 ──────────────────────────────────────────────────────── -/

/-- C2 is a code bug: the claim asks that, with the sentiment-override
toggle `NEWS_OVERRIDE_RSI` enabled, BEARISH sentiment turn a would-be BUY
into HOLD. In the code, `analysis.generate_signal` has no sentiment
parameter at all and `NEWS_OVERRIDE_RSI` is never read, so at the claimed
veto input (rsi 25, ls 3/5, whale 100, TRENDING, BEARISH) the decider
returns BUY, and the actual five-argument call made by main.py raises
`TypeError` (modelled by `generate_signal_call_site` returning none). -/
theorem sentiment_veto_not_implemented :
    NEWS_OVERRIDE_RSI = true ∧
    generate_signal 25 (3/5) 100 "TRENDING" = "BUY" ∧
    generate_signal_call_site 25 (3/5) 100 "TRENDING" "BEARISH" = none := by
  refine ⟨rfl, ?_, rfl⟩
  unfold generate_signal RSI_OVERSOLD LS_RATIO_THRESHOLD WHALE_NET_VOL_MIN
  norm_num

/- ── analysis.py : compute_rsi ───────────────────────────────── -/

/-- Period-over-period deltas `closes[i] - closes[i-1]` for i = 1..n-1. -/
def price_deltas (closes : List ℚ) : List ℚ :=
  (closes.zip closes.tail).map (fun p => p.2 - p.1)

/-- `d if d > 0 else 0.0`; on the smoothing path the code writes
`max(d, 0.0)`, the same function. -/
def gain_of (d : ℚ) : ℚ := if 0 < d then d else 0

/-- `-d if d < 0 else 0.0`; on the smoothing path `max(-d, 0.0)`. -/
def loss_of (d : ℚ) : ℚ := if d < 0 then -d else 0

/-- One Wilder smoothing update: `(avg*(period-1) + x) / period`. -/
def wilder_step (period : ℕ) (avg x : ℚ) : ℚ :=
  (avg * ((period : ℚ) - 1) + x) / period

/-- Loop body of `compute_rsi`: smooth the gain and loss averages by the
next delta. -/
def rsi_step (period : ℕ) (a : ℚ × ℚ) (d : ℚ) : ℚ × ℚ :=
  (wilder_step period a.1 (gain_of d), wilder_step period a.2 (loss_of d))

/-- The final `(avg_gain, avg_loss)` pair of `compute_rsi`: simple
averages of the first `period` gains/losses, then Wilder smoothing over
the remaining deltas. -/
def rsi_avgs (closes : List ℚ) (period : ℕ) : ℚ × ℚ :=
  let ds := price_deltas closes
  let seed_gain := ((ds.take period).map gain_of).sum / period
  let seed_loss := ((ds.take period).map loss_of).sum / period
  (ds.drop period).foldl (rsi_step period) (seed_gain, seed_loss)

/-- analysis.py `compute_rsi(closes, period)`; `none` models the
`ValueError` raised when fewer than `period + 1` closes are supplied. -/
def compute_rsi (closes : List ℚ) (period : ℕ) : Option ℚ :=
  if closes.length < period + 1 then none
  else
    let a := rsi_avgs closes period
    if a.2 = 0 then some 100
    else some (100 - 100 / (1 + a.1 / a.2))

theorem gain_of_nonneg (d : ℚ) : 0 ≤ gain_of d := by
  unfold gain_of; split <;> linarith

theorem loss_of_nonneg (d : ℚ) : 0 ≤ loss_of d := by
  unfold loss_of; split <;> linarith

theorem wilder_step_nonneg (period : ℕ) (hp : 1 ≤ period) (avg x : ℚ)
    (ha : 0 ≤ avg) (hx : 0 ≤ x) : 0 ≤ wilder_step period avg x := by
  have h1 : (1:ℚ) ≤ (period:ℚ) := by exact_mod_cast hp
  unfold wilder_step
  apply div_nonneg
  · nlinarith
  · positivity

theorem wilder_step_pos (period : ℕ) (hp : 1 ≤ period) (avg x : ℚ)
    (ha : 0 ≤ avg) (hx : 0 < x) : 0 < wilder_step period avg x := by
  have h1 : (1:ℚ) ≤ (period:ℚ) := by exact_mod_cast hp
  unfold wilder_step
  apply div_pos
  · nlinarith
  · linarith

theorem wilder_step_zero (period : ℕ) : wilder_step period 0 0 = 0 := by
  unfold wilder_step; simp

theorem rsi_fold_nonneg (period : ℕ) (hp : 1 ≤ period) (l : List ℚ) :
    ∀ a : ℚ × ℚ, 0 ≤ a.1 → 0 ≤ a.2 →
      0 ≤ (l.foldl (rsi_step period) a).1 ∧ 0 ≤ (l.foldl (rsi_step period) a).2 := by
  induction l with
  | nil => intro a h1 h2; exact ⟨h1, h2⟩
  | cons d t ih =>
    intro a h1 h2
    simp only [List.foldl_cons]
    exact ih _ (wilder_step_nonneg period hp _ _ h1 (gain_of_nonneg d))
      (wilder_step_nonneg period hp _ _ h2 (loss_of_nonneg d))

theorem rsi_fold_snd_zero (period : ℕ) (l : List ℚ) :
    ∀ a : ℚ × ℚ, (∀ d ∈ l, loss_of d = 0) → a.2 = 0 →
      (l.foldl (rsi_step period) a).2 = 0 := by
  induction l with
  | nil => intro a _ h2; exact h2
  | cons d t ih =>
    intro a hl h2
    simp only [List.foldl_cons]
    apply ih
    · intro x hx; exact hl x (List.mem_cons_of_mem d hx)
    · show wilder_step period a.2 (loss_of d) = 0
      rw [h2, hl d (List.mem_cons_self d t), wilder_step_zero]

theorem rsi_fold_fst_zero (period : ℕ) (l : List ℚ) :
    ∀ a : ℚ × ℚ, (∀ d ∈ l, gain_of d = 0) → a.1 = 0 →
      (l.foldl (rsi_step period) a).1 = 0 := by
  induction l with
  | nil => intro a _ h1; exact h1
  | cons d t ih =>
    intro a hl h1
    simp only [List.foldl_cons]
    apply ih
    · intro x hx; exact hl x (List.mem_cons_of_mem d hx)
    · show wilder_step period a.1 (gain_of d) = 0
      rw [h1, hl d (List.mem_cons_self d t), wilder_step_zero]

theorem rsi_fold_snd_pos (period : ℕ) (hp : 1 ≤ period) (l : List ℚ) :
    ∀ a : ℚ × ℚ, (∀ d ∈ l, 0 < loss_of d) → 0 < a.2 →
      0 < (l.foldl (rsi_step period) a).2 := by
  induction l with
  | nil => intro a _ h2; exact h2
  | cons d t ih =>
    intro a hl h2
    simp only [List.foldl_cons]
    apply ih
    · intro x hx; exact hl x (List.mem_cons_of_mem d hx)
    · exact wilder_step_pos period hp _ _ (le_of_lt h2) (hl d (List.mem_cons_self d t))

theorem price_deltas_length (closes : List ℚ) :
    (price_deltas closes).length = closes.length - 1 := by
  unfold price_deltas
  rw [List.length_map, List.length_zip, List.length_tail]
  exact Nat.min_eq_right (Nat.sub_le _ 1)

theorem price_deltas_pos (closes : List ℚ) (h : List.Chain' (· < ·) closes) :
    ∀ d ∈ price_deltas closes, 0 < d := by
  induction closes with
  | nil => intro d hd; simp [price_deltas] at hd
  | cons a t ih =>
    cases t with
    | nil => intro d hd; simp [price_deltas] at hd
    | cons b t2 =>
      rw [List.chain'_cons] at h
      intro d hd
      simp only [price_deltas, List.tail_cons, List.zip_cons_cons, List.map_cons,
        List.mem_cons] at hd
      rcases hd with rfl | hd
      · linarith [h.1]
      · exact ih h.2 d hd

theorem price_deltas_neg (closes : List ℚ) (h : List.Chain' (· > ·) closes) :
    ∀ d ∈ price_deltas closes, d < 0 := by
  induction closes with
  | nil => intro d hd; simp [price_deltas] at hd
  | cons a t ih =>
    cases t with
    | nil => intro d hd; simp [price_deltas] at hd
    | cons b t2 =>
      rw [List.chain'_cons] at h
      intro d hd
      simp only [price_deltas, List.tail_cons, List.zip_cons_cons, List.map_cons,
        List.mem_cons] at hd
      rcases hd with rfl | hd
      · have : b < a := h.1
        linarith
      · exact ih h.2 d hd

theorem rsi_avgs_nonneg (closes : List ℚ) (period : ℕ) (hp : 1 ≤ period) :
    0 ≤ (rsi_avgs closes period).1 ∧ 0 ≤ (rsi_avgs closes period).2 := by
  unfold rsi_avgs
  apply rsi_fold_nonneg period hp
  · show (0:ℚ) ≤ (((price_deltas closes).take period).map gain_of).sum / (period:ℚ)
    apply div_nonneg _ (by positivity)
    apply List.sum_nonneg
    intro x hx
    obtain ⟨d, _, rfl⟩ := List.mem_map.mp hx
    exact gain_of_nonneg d
  · show (0:ℚ) ≤ (((price_deltas closes).take period).map loss_of).sum / (period:ℚ)
    apply div_nonneg _ (by positivity)
    apply List.sum_nonneg
    intro x hx
    obtain ⟨d, _, rfl⟩ := List.mem_map.mp hx
    exact loss_of_nonneg d

/- ── C6 ──────────────────────────────────────────────────────── -/

/-- C6: `compute_rsi` fails iff `len(closes) < period + 1`; for every
closes list of length ≥ period + 1 (period ≥ 1) the result lies in
[0, 100]; it equals exactly 100 whenever the final smoothed average loss
is 0 (no division performed); a strictly rising closes sequence of at
least 30 points (default period 14) yields RSI > 70 and a strictly
falling one yields RSI < 30. -/
theorem compute_rsi_spec (closes : List ℚ) (period : ℕ) (hp : 1 ≤ period) :
    ((compute_rsi closes period).isNone ↔ closes.length < period + 1) ∧
    (∀ r, compute_rsi closes period = some r → 0 ≤ r ∧ r ≤ 100) ∧
    (period + 1 ≤ closes.length → (rsi_avgs closes period).2 = 0 →
      compute_rsi closes period = some 100) ∧
    (List.Chain' (· < ·) closes → 30 ≤ closes.length →
      ∃ r, compute_rsi closes RSI_PERIOD = some r ∧ 70 < r) ∧
    (List.Chain' (· > ·) closes → 30 ≤ closes.length →
      ∃ r, compute_rsi closes RSI_PERIOD = some r ∧ r < 30) := by
  have hp14 : (1:ℕ) ≤ RSI_PERIOD := by norm_num [RSI_PERIOD]
  refine ⟨?_, ?_, ?_, ?_, ?_⟩
  · -- failure characterisation
    by_cases h : closes.length < period + 1
    · simp [compute_rsi, h]
    · simp only [compute_rsi, if_neg h]
      split <;> simp [h]
  · -- range [0, 100]
    intro r hr
    by_cases h : closes.length < period + 1
    · simp [compute_rsi, h] at hr
    · obtain ⟨hg, hl⟩ := rsi_avgs_nonneg closes period hp
      simp only [compute_rsi, if_neg h] at hr
      by_cases hz : (rsi_avgs closes period).2 = 0
      · rw [if_pos hz, Option.some.injEq] at hr
        constructor <;> linarith [hr]
      · rw [if_neg hz, Option.some.injEq] at hr
        have hal : 0 < (rsi_avgs closes period).2 := lt_of_le_of_ne hl (Ne.symm hz)
        have hrs : 0 ≤ (rsi_avgs closes period).1 / (rsi_avgs closes period).2 :=
          div_nonneg hg (le_of_lt hal)
        have h1 : (0:ℚ) < 1 + (rsi_avgs closes period).1 / (rsi_avgs closes period).2 := by
          linarith
        have h2 : 100 / (1 + (rsi_avgs closes period).1 / (rsi_avgs closes period).2) ≤ 100 := by
          rw [div_le_iff₀ h1]; nlinarith
        have h3 : 0 < 100 / (1 + (rsi_avgs closes period).1 / (rsi_avgs closes period).2) := by
          positivity
        constructor <;> linarith [hr]
  · -- avg_loss = 0 yields exactly 100
    intro hlen hz
    simp [compute_rsi, Nat.not_lt.mpr hlen, hz]
  · -- strictly rising yields RSI > 70
    intro hch hlen
    have hlen15 : ¬ closes.length < RSI_PERIOD + 1 := by
      unfold RSI_PERIOD; omega
    have hpos := price_deltas_pos closes hch
    have hz : (rsi_avgs closes RSI_PERIOD).2 = 0 := by
      unfold rsi_avgs
      apply rsi_fold_snd_zero
      · intro d hd
        have hmem : d ∈ price_deltas closes := List.drop_subset _ _ hd
        have := hpos d hmem
        unfold loss_of
        rw [if_neg (by linarith)]
      · show (((price_deltas closes).take RSI_PERIOD).map loss_of).sum / (RSI_PERIOD:ℚ) = 0
        rw [List.sum_eq_zero, zero_div]
        intro x hx
        obtain ⟨d, hd, rfl⟩ := List.mem_map.mp hx
        have := hpos d (List.take_subset _ _ hd)
        unfold loss_of
        rw [if_neg (by linarith)]
    refine ⟨100, ?_, by norm_num⟩
    simp [compute_rsi, hlen15, hz]
  · -- strictly falling yields RSI < 30
    intro hch hlen
    have hlen15 : ¬ closes.length < RSI_PERIOD + 1 := by
      unfold RSI_PERIOD; omega
    have hneg := price_deltas_neg closes hch
    have hdl := price_deltas_length closes
    have hg0 : (rsi_avgs closes RSI_PERIOD).1 = 0 := by
      unfold rsi_avgs
      apply rsi_fold_fst_zero
      · intro d hd
        have := hneg d (List.drop_subset _ _ hd)
        unfold gain_of
        rw [if_neg (by linarith)]
      · show (((price_deltas closes).take RSI_PERIOD).map gain_of).sum / (RSI_PERIOD:ℚ) = 0
        rw [List.sum_eq_zero, zero_div]
        intro x hx
        obtain ⟨d, hd, rfl⟩ := List.mem_map.mp hx
        have := hneg d (List.take_subset _ _ hd)
        unfold gain_of
        rw [if_neg (by linarith)]
    have hl0 : 0 < (rsi_avgs closes RSI_PERIOD).2 := by
      unfold rsi_avgs
      apply rsi_fold_snd_pos RSI_PERIOD hp14
      · intro d hd
        have hdm := hneg d (List.drop_subset _ _ hd)
        unfold loss_of
        rw [if_pos hdm]
        linarith
      · show (0:ℚ) < (((price_deltas closes).take RSI_PERIOD).map loss_of).sum / (RSI_PERIOD:ℚ)
        apply div_pos
        · apply List.sum_pos
          · intro x hx
            obtain ⟨d, hd, rfl⟩ := List.mem_map.mp hx
            have := hneg d (List.take_subset _ _ hd)
            unfold loss_of
            rw [if_pos this]
            linarith
          · have hlt : 0 < (((price_deltas closes).take RSI_PERIOD).map loss_of).length := by
              rw [List.length_map, List.length_take]
              unfold RSI_PERIOD at *
              omega
            exact List.ne_nil_of_length_pos hlt
        · norm_num [RSI_PERIOD]
    have hz : ¬ (rsi_avgs closes RSI_PERIOD).2 = 0 := ne_of_gt hl0
    refine ⟨0, ?_, by norm_num⟩
    have hcr : compute_rsi closes RSI_PERIOD =
        some (100 - 100 / (1 + (rsi_avgs closes RSI_PERIOD).1 /
          (rsi_avgs closes RSI_PERIOD).2)) := by
      simp [compute_rsi, hlen15, hz]
    rw [hcr, hg0]
    norm_num

/-- A strictly rising list of 30 closes, used as witness data. -/
def rising30 : List ℚ :=
  [1, 2, 3, 4, 5, 6, 7, 8, 9, 10, 11, 12, 13, 14, 15, 16, 17, 18, 19, 20,
   21, 22, 23, 24, 25, 26, 27, 28, 29, 30]

/-- Witness for C6: on the concrete strictly rising 30-point list the
theorem yields an RSI above 70. -/
theorem compute_rsi_spec_witness :
    ∃ r, compute_rsi rising30 RSI_PERIOD = some r ∧ 70 < r :=
  (compute_rsi_spec rising30 14 (by norm_num)).2.2.2.1
    (by norm_num [rising30, List.chain'_cons]) (by norm_num [rising30])

/- ── analysis.py : compute_adx ───────────────────────────────── -/

/-- True Range of a bar: `max(hi - lo, |hi - prev_close|, |lo - prev_close|)`. -/
def true_range (hi lo prev_close : ℚ) : ℚ :=
  max (hi - lo) (max |hi - prev_close| |lo - prev_close|)

/-- `+DM`: `up_move if (up_move > down_move and up_move > 0) else 0.0`. -/
def plus_dm_of (hi prev_hi lo prev_lo : ℚ) : ℚ :=
  let up_move := hi - prev_hi
  let down_move := prev_lo - lo
  if down_move < up_move ∧ 0 < up_move then up_move else 0

/-- `-DM`: `down_move if (down_move > up_move and down_move > 0) else 0.0`. -/
def minus_dm_of (hi prev_hi lo prev_lo : ℚ) : ℚ :=
  let up_move := hi - prev_hi
  let down_move := prev_lo - lo
  if up_move < down_move ∧ 0 < down_move then down_move else 0

/-- The per-index `(high, (low, close))` triples of the input series. -/
def bars (highs lows closes : List ℚ) : List (ℚ × ℚ × ℚ) :=
  highs.zip (lows.zip closes)

/-- Consecutive `(previous bar, current bar)` pairs, one per index
i = 1..n-1 of the Step-1 loop. -/
def bar_steps (highs lows closes : List ℚ) : List ((ℚ × ℚ × ℚ) × ℚ × ℚ × ℚ) :=
  (bars highs lows closes).zip (bars highs lows closes).tail

/-- `tr_list` of Step 1 (current hi, current lo, previous close). -/
def tr_list (highs lows closes : List ℚ) : List ℚ :=
  (bar_steps highs lows closes).map (fun s => true_range s.2.1 s.2.2.1 s.1.2.2)

/-- `plus_dm_list` of Step 1. -/
def plus_dm_list (highs lows closes : List ℚ) : List ℚ :=
  (bar_steps highs lows closes).map (fun s => plus_dm_of s.2.1 s.1.1 s.2.2.1 s.1.2.1)

/-- `minus_dm_list` of Step 1. -/
def minus_dm_list (highs lows closes : List ℚ) : List ℚ :=
  (bar_steps highs lows closes).map (fun s => minus_dm_of s.2.1 s.1.1 s.2.2.1 s.1.2.1)

/-- `wilder_smooth` inner loop: emit the running smoothed value and
recurse with `s - s/p + val`. -/
def wilder_smooth_aux (p : ℕ) (s : ℚ) : List ℚ → List ℚ
  | [] => [s]
  | v :: rest => s :: wilder_smooth_aux p (s - s / p + v) rest

/-- analysis.py `wilder_smooth(data, p)`: seed `sum(data[:p])`, then for
each remaining value append `prev - prev/p + val`. -/
def wilder_smooth (data : List ℚ) (p : ℕ) : List ℚ :=
  wilder_smooth_aux p ((data.take p).sum) (data.drop p)

/-- One entry of Step 3: DX from aligned smoothed TR, +DM, -DM values,
with both divisions guarded exactly as in the code. -/
def dx_of (a p m : ℚ) : ℚ :=
  if a = 0 then 0
  else
    let plus_di := 100 * p / a
    let minus_di := 100 * m / a
    let di_sum := plus_di + minus_di
    if di_sum ≠ 0 then |plus_di - minus_di| / di_sum * 100 else 0

/-- Step 3 of `compute_adx`: the code indexes the three equally long
smoothed series by a common i, modelled as a three-way zip. -/
def dx_list (highs lows closes : List ℚ) (period : ℕ) : List ℚ :=
  let atr := wilder_smooth (tr_list highs lows closes) period
  let sp := wilder_smooth (plus_dm_list highs lows closes) period
  let sm := wilder_smooth (minus_dm_list highs lows closes) period
  (atr.zip (sp.zip sm)).map (fun t => dx_of t.1 t.2.1 t.2.2)

/-- analysis.py `compute_adx(highs, lows, closes, period)`; the first
`none` models the insufficient-bars `ValueError`, the second the
"Not enough DX values" `ValueError`. -/
def compute_adx (highs lows closes : List ℚ) (period : ℕ) : Option ℚ :=
  if closes.length < 2 * period + 1 then none
  else
    let dxl := dx_list highs lows closes period
    if dxl.length < period then none
    else
      some ((dxl.drop period).foldl (wilder_step period) ((dxl.take period).sum / period))

theorem wilder_smooth_aux_length (p : ℕ) (l : List ℚ) :
    ∀ s : ℚ, (wilder_smooth_aux p s l).length = l.length + 1 := by
  induction l with
  | nil => intro s; rfl
  | cons v t ih => intro s; simp [wilder_smooth_aux, ih]

theorem wilder_smooth_length (data : List ℚ) (p : ℕ) :
    (wilder_smooth data p).length = data.length - p + 1 := by
  unfold wilder_smooth
  rw [wilder_smooth_aux_length, List.length_drop]

theorem wilder_smooth_aux_nonneg (p : ℕ) (hp : 1 ≤ p) (l : List ℚ) :
    ∀ s : ℚ, 0 ≤ s → (∀ v ∈ l, 0 ≤ v) → ∀ y ∈ wilder_smooth_aux p s l, 0 ≤ y := by
  induction l with
  | nil =>
    intro s hs _ y hy
    simp only [wilder_smooth_aux, List.mem_singleton] at hy
    rw [hy]; exact hs
  | cons v t ih =>
    intro s hs hl y hy
    simp only [wilder_smooth_aux, List.mem_cons] at hy
    rcases hy with rfl | hy
    · exact hs
    · have hp1 : (1:ℚ) ≤ (p:ℚ) := by exact_mod_cast hp
      have hdiv := div_le_self hs hp1
      have hv : 0 ≤ v := hl v (List.mem_cons_self v t)
      exact ih (s - s / p + v) (by linarith)
        (fun w hw => hl w (List.mem_cons_of_mem v hw)) y hy

theorem wilder_smooth_nonneg (data : List ℚ) (p : ℕ) (hp : 1 ≤ p)
    (hd : ∀ x ∈ data, 0 ≤ x) : ∀ y ∈ wilder_smooth data p, 0 ≤ y := by
  unfold wilder_smooth
  apply wilder_smooth_aux_nonneg p hp
  · apply List.sum_nonneg
    intro x hx
    exact hd x (List.take_subset p data hx)
  · intro v hv
    exact hd v (List.drop_subset p data hv)

theorem true_range_nonneg (hi lo prev_close : ℚ) : 0 ≤ true_range hi lo prev_close := by
  unfold true_range
  have h1 : (0:ℚ) ≤ |hi - prev_close| := abs_nonneg _
  have h2 : |hi - prev_close| ≤ max |hi - prev_close| |lo - prev_close| := le_max_left _ _
  have h3 : max |hi - prev_close| |lo - prev_close| ≤
      max (hi - lo) (max |hi - prev_close| |lo - prev_close|) := le_max_right _ _
  linarith

theorem plus_dm_of_nonneg (hi prev_hi lo prev_lo : ℚ) : 0 ≤ plus_dm_of hi prev_hi lo prev_lo := by
  unfold plus_dm_of
  show 0 ≤ if prev_lo - lo < hi - prev_hi ∧ 0 < hi - prev_hi then hi - prev_hi else 0
  split
  · next h => linarith [h.2]
  · exact le_refl 0

theorem minus_dm_of_nonneg (hi prev_hi lo prev_lo : ℚ) : 0 ≤ minus_dm_of hi prev_hi lo prev_lo := by
  unfold minus_dm_of
  show 0 ≤ if hi - prev_hi < prev_lo - lo ∧ 0 < prev_lo - lo then prev_lo - lo else 0
  split
  · next h => linarith [h.2]
  · exact le_refl 0

theorem dx_of_nonneg (a p m : ℚ) (ha : 0 ≤ a) (hp : 0 ≤ p) (hm : 0 ≤ m) :
    0 ≤ dx_of a p m := by
  unfold dx_of
  split
  · exact le_refl 0
  · next haz =>
    have ha0 : 0 < a := lt_of_le_of_ne ha (Ne.symm haz)
    have hpi : 0 ≤ 100 * p / a := by positivity
    have hmi : 0 ≤ 100 * m / a := by positivity
    show 0 ≤ if 100 * p / a + 100 * m / a ≠ 0 then
        |100 * p / a - 100 * m / a| / (100 * p / a + 100 * m / a) * 100 else 0
    split
    · next hs =>
      have hsum : 0 < 100 * p / a + 100 * m / a := lt_of_le_of_ne (by linarith) (Ne.symm hs)
      have := abs_nonneg (100 * p / a - 100 * m / a)
      positivity
    · exact le_refl 0

theorem foldl_wilder_nonneg (period : ℕ) (hp : 1 ≤ period) (l : List ℚ) :
    ∀ init : ℚ, 0 ≤ init → (∀ x ∈ l, 0 ≤ x) → 0 ≤ l.foldl (wilder_step period) init := by
  induction l with
  | nil => intro i hi _; exact hi
  | cons x t ih =>
    intro i hi hl
    simp only [List.foldl_cons]
    exact ih _ (wilder_step_nonneg period hp _ _ hi (hl x (List.mem_cons_self x t)))
      (fun y hy => hl y (List.mem_cons_of_mem x hy))

theorem tr_list_mem_nonneg (highs lows closes : List ℚ) :
    ∀ x ∈ tr_list highs lows closes, 0 ≤ x := by
  intro x hx
  obtain ⟨s, _, rfl⟩ := List.mem_map.mp hx
  exact true_range_nonneg _ _ _

theorem plus_dm_list_mem_nonneg (highs lows closes : List ℚ) :
    ∀ x ∈ plus_dm_list highs lows closes, 0 ≤ x := by
  intro x hx
  obtain ⟨s, _, rfl⟩ := List.mem_map.mp hx
  exact plus_dm_of_nonneg _ _ _ _

theorem minus_dm_list_mem_nonneg (highs lows closes : List ℚ) :
    ∀ x ∈ minus_dm_list highs lows closes, 0 ≤ x := by
  intro x hx
  obtain ⟨s, _, rfl⟩ := List.mem_map.mp hx
  exact minus_dm_of_nonneg _ _ _ _

theorem bars_length (highs lows closes : List ℚ)
    (hh : highs.length = closes.length) (hl : lows.length = closes.length) :
    (bars highs lows closes).length = closes.length := by
  unfold bars
  rw [List.length_zip, List.length_zip]
  omega

theorem bar_steps_length (highs lows closes : List ℚ)
    (hh : highs.length = closes.length) (hl : lows.length = closes.length) :
    (bar_steps highs lows closes).length = closes.length - 1 := by
  unfold bar_steps
  rw [List.length_zip, List.length_tail, bars_length highs lows closes hh hl]
  omega

theorem dx_list_length (highs lows closes : List ℚ) (period : ℕ)
    (hh : highs.length = closes.length) (hl : lows.length = closes.length)
    (hp : 1 ≤ period) (hn : 2 * period + 1 ≤ closes.length) :
    (dx_list highs lows closes period).length = closes.length - period := by
  unfold dx_list tr_list plus_dm_list minus_dm_list
  rw [List.length_map, List.length_zip, List.length_zip,
    wilder_smooth_length, wilder_smooth_length, wilder_smooth_length,
    List.length_map, List.length_map, List.length_map,
    bar_steps_length highs lows closes hh hl]
  omega

theorem dx_list_nonneg (highs lows closes : List ℚ) (period : ℕ) (hp : 1 ≤ period) :
    ∀ x ∈ dx_list highs lows closes period, 0 ≤ x := by
  intro x hx
  unfold dx_list at hx
  obtain ⟨⟨a, pp, mm⟩, ht, rfl⟩ := List.mem_map.mp hx
  obtain ⟨h1, h2⟩ := List.of_mem_zip ht
  obtain ⟨h3, h4⟩ := List.of_mem_zip h2
  exact dx_of_nonneg a pp mm
    (wilder_smooth_nonneg _ period hp (tr_list_mem_nonneg highs lows closes) a h1)
    (wilder_smooth_nonneg _ period hp (plus_dm_list_mem_nonneg highs lows closes) pp h3)
    (wilder_smooth_nonneg _ period hp (minus_dm_list_mem_nonneg highs lows closes) mm h4)

/- ── C7 ──────────────────────────────────────────────────────── -/

/-- C7: for equal-length highs/lows/closes with at least 2*period+1 bars
(period ≥ 1), `compute_adx` completes: the DX list has exactly
n - period entries, which is more than period, so the secondary
"fewer than period DX values" failure branch is unreachable; every DX
entry is produced with guarded divisions and is ≥ 0, and the returned
ADX is ≥ 0. -/
theorem compute_adx_safe (highs lows closes : List ℚ) (period : ℕ)
    (hp : 1 ≤ period)
    (hh : highs.length = closes.length) (hl : lows.length = closes.length)
    (hn : 2 * period + 1 ≤ closes.length) :
    (dx_list highs lows closes period).length = closes.length - period ∧
    period < (dx_list highs lows closes period).length ∧
    (∀ dx ∈ dx_list highs lows closes period, 0 ≤ dx) ∧
    ∃ a, compute_adx highs lows closes period = some a ∧ 0 ≤ a := by
  have hlen := dx_list_length highs lows closes period hh hl hp hn
  have hnonneg := dx_list_nonneg highs lows closes period hp
  have hlt : period < (dx_list highs lows closes period).length := by omega
  refine ⟨hlen, hlt, hnonneg, ?_⟩
  have h1 : ¬ closes.length < 2 * period + 1 := by omega
  have h2 : ¬ (dx_list highs lows closes period).length < period := by omega
  refine ⟨((dx_list highs lows closes period).drop period).foldl (wilder_step period)
      (((dx_list highs lows closes period).take period).sum / period), ?_, ?_⟩
  · simp [compute_adx, h1, h2]
  · apply foldl_wilder_nonneg period hp
    · apply div_nonneg _ (by positivity)
      apply List.sum_nonneg
      intro x hx
      exact hnonneg x (List.take_subset _ _ hx)
    · intro x hx
      exact hnonneg x (List.drop_subset _ _ hx)

/-- Witness for C7 on a concrete 30-bar series (period 14). -/
theorem compute_adx_safe_witness :
    (dx_list rising30 rising30 rising30 14).length = rising30.length - 14 ∧
    14 < (dx_list rising30 rising30 rising30 14).length ∧
    (∀ dx ∈ dx_list rising30 rising30 rising30 14, 0 ≤ dx) ∧
    ∃ a, compute_adx rising30 rising30 rising30 14 = some a ∧ 0 ≤ a :=
  compute_adx_safe rising30 rising30 rising30 14 (by norm_num) rfl rfl
    (by norm_num [rising30])

/- ── analysis.py : compute_bollinger ─────────────────────────── -/

/-- analysis.py `compute_bollinger(closes, period, num_std)`. The slice
`closes[-period:]` is the last `period` closes (for period ≤ len), and
`variance ** 0.5` on a nonnegative float is its square root. -/
noncomputable def compute_bollinger (closes : List ℝ) (period : ℕ) (num_std : ℝ) :
    Option (ℝ × ℝ × ℝ) :=
  if closes.length < period then none
  else
    let window := closes.drop (closes.length - period)
    let middle : ℝ := window.sum / (period : ℝ)
    let variance : ℝ := (window.map (fun x => (x - middle) ^ 2)).sum / (period : ℝ)
    let std := Real.sqrt variance
    some (middle + num_std * std, middle, middle - num_std * std)

/-- Stated from the spec's words, for comparison: the last `period`
closes. -/
def last_window (closes : List ℝ) (period : ℕ) : List ℝ :=
  closes.drop (closes.length - period)

/-- Stated from the spec's words, for comparison: middle band is the
arithmetic mean of the last `period` closes. -/
noncomputable def spec_mean (closes : List ℝ) (period : ℕ) : ℝ :=
  (last_window closes period).sum / (period : ℝ)

/-- Stated from the spec's words, for comparison: population variance of
the window (divide by `period`, not `period - 1`). -/
noncomputable def spec_pop_variance (closes : List ℝ) (period : ℕ) : ℝ :=
  ((last_window closes period).map
    (fun x => (x - spec_mean closes period) ^ 2)).sum / (period : ℝ)

/- ── C9 ──────────────────────────────────────────────────────── -/

/-- C9: for every closes list with at least `period` entries (period ≥ 1)
and every num_std ≥ 0, `compute_bollinger` returns (upper, middle, lower)
where middle is the arithmetic mean of the last `period` closes, the
standard deviation is the square root of the population variance
(dividing by period, not period - 1), upper = middle + num_std·std,
lower = middle − num_std·std, and upper ≥ middle ≥ lower. -/
theorem compute_bollinger_spec (closes : List ℝ) (period : ℕ) (num_std : ℝ)
    (_hp : 1 ≤ period) (hlen : period ≤ closes.length) (hstd : 0 ≤ num_std) :
    ∃ upper middle lower,
      compute_bollinger closes period num_std = some (upper, middle, lower) ∧
      middle = spec_mean closes period ∧
      upper = middle + num_std * Real.sqrt (spec_pop_variance closes period) ∧
      lower = middle - num_std * Real.sqrt (spec_pop_variance closes period) ∧
      lower ≤ middle ∧ middle ≤ upper := by
  have h1 : ¬ closes.length < period := by omega
  have hnn : 0 ≤ num_std * Real.sqrt (spec_pop_variance closes period) :=
    mul_nonneg hstd (Real.sqrt_nonneg _)
  refine ⟨spec_mean closes period + num_std * Real.sqrt (spec_pop_variance closes period),
    spec_mean closes period,
    spec_mean closes period - num_std * Real.sqrt (spec_pop_variance closes period),
    ?_, rfl, rfl, rfl, ?_, ?_⟩
  · unfold compute_bollinger spec_pop_variance spec_mean last_window
    rw [if_neg h1]
  · exact sub_le_self _ hnn
  · exact le_add_of_nonneg_right hnn

/-- Witness for C9 at closes = [1, 2, 3], period 3, num_std 2. -/
theorem compute_bollinger_spec_witness :
    ∃ upper middle lower,
      compute_bollinger [1, 2, 3] 3 2 = some (upper, middle, lower) ∧
      middle = spec_mean [1, 2, 3] 3 ∧
      upper = middle + 2 * Real.sqrt (spec_pop_variance [1, 2, 3] 3) ∧
      lower = middle - 2 * Real.sqrt (spec_pop_variance [1, 2, 3] 3) ∧
      lower ≤ middle ∧ middle ≤ upper :=
  compute_bollinger_spec [1, 2, 3] 3 2 (by norm_num) (by norm_num) (by norm_num)

/- ── database.py / execution.py : data model ─────────────────── -/

/-- One open position: `{"side": ..., "entry": ..., "size_usd": ...}`. -/
structure Position where
  side : String
  entry : ℚ
  size_usd : ℚ
deriving DecidableEq, Repr

/-- One row of the `trades` table (the fields `log_trade` writes). -/
structure TradeRecord where
  side : String
  price : ℚ
  size_usd : ℚ
  pnl : ℚ
deriving DecidableEq, Repr

/-- The `state` table of database.py: the `consecutive_losses` counter
and the `cooldown_until` timestamp (`none` models the empty string). -/
structure BreakerState where
  consecutive_losses : ℕ
  cooldown_until : Option ℚ
deriving DecidableEq, Repr

/-- The SQLite database: append-only trade journal plus breaker state. -/
structure DbState where
  journal : List TradeRecord
  breaker : BreakerState
deriving DecidableEq, Repr

/-- A `PaperTrader`: cash balance, per-symbol positions (a dict with
unique keys, modelled as an association list), and its database. -/
structure TraderState where
  balance : ℚ
  positions : List (String × Position)
  db : DbState
deriving DecidableEq, Repr

/-- The result dict built by `execute_trade` (fields that matter to the
claims; `size_usd`/`trade_id` are `none` when the branch does not set
them). -/
structure TradeResult where
  action : String
  signal : String
  symbol : String
  price : ℚ
  pnl : ℚ
  blocked : Bool
  size_usd : Option ℚ
  trade_id : Option ℕ
deriving DecidableEq, Repr

/- ── database.py : queries and log_trade ─────────────────────── -/

/-- database.py `is_on_cooldown(db_path)`: true iff `cooldown_until` is
set and the current time is before it. -/
def is_on_cooldown (b : BreakerState) (now : ℚ) : Bool :=
  match b.cooldown_until with
  | none => false
  | some cd => decide (now < cd)

/-- database.py `get_consecutive_losses(db_path)`. -/
def get_consecutive_losses (b : BreakerState) : ℕ :=
  b.consecutive_losses

/-- database.py `log_trade(side, price, size_usd, pnl, db_path)`: append
the closed trade, then update the loss streak — a loss increments the
counter and, when it reaches `MAX_CONSECUTIVE_LOSSES`, sets
`cooldown_until = now + COOLDOWN_HOURS`; a win or break-even resets the
counter to 0. Returns the new row id (`lastrowid`). -/
def log_trade (side : String) (price size_usd pnl : ℚ) (now : ℚ) (db : DbState) :
    DbState × ℕ :=
  let journal := db.journal ++ [⟨side, price, size_usd, pnl⟩]
  let breaker :=
    if pnl < 0 then
      let losses := db.breaker.consecutive_losses + 1
      if MAX_CONSECUTIVE_LOSSES ≤ losses then
        { consecutive_losses := losses, cooldown_until := some (now + COOLDOWN_HOURS) }
      else
        { db.breaker with consecutive_losses := losses }
    else
      { db.breaker with consecutive_losses := 0 }
  (⟨journal, breaker⟩, journal.length)

/- ── execution.py : PaperTrader ──────────────────────────────── -/

/-- execution.py `PaperTrader.check_circuit_breaker`: trading is allowed
unless a cooldown is active or the loss counter has hit 3. -/
def check_circuit_breaker (s : TraderState) (now : ℚ) : Bool :=
  if is_on_cooldown s.db.breaker now then false
  else if 3 ≤ get_consecutive_losses s.db.breaker then false
  else true

/-- execution.py `PaperTrader.simulate_pnl`: LONG
`(exit - entry) / entry * size_usd`, anything else 0. -/
def simulate_pnl (entry exit_price size_usd : ℚ) (side : String) : ℚ :=
  if side = "BUY" then (exit_price - entry) / entry * size_usd else 0

/-- The freshly initialised result dict at the top of `execute_trade`. -/
def base_result (signal : String) (price : ℚ) (symbol : String) : TradeResult :=
  { action := "NONE"
    signal := signal
    symbol := symbol
    price := price
    pnl := 0
    blocked := false
    size_usd := none
    trade_id := none }

/-- execution.py `PaperTrader.execute_trade(signal, current_price,
symbol)`. `journal_ok` models whether the SQLite write inside
`log_trade` succeeds; on failure the Python exception propagates after
`self.balance += pos["size_usd"] + pnl` has already run and before the
position is removed, so the function result is `none` and the returned
state keeps the already-applied balance mutation. -/
def execute_trade_f (journal_ok : Bool) (s : TraderState) (now : ℚ)
    (signal : String) (current_price : ℚ) (symbol : String) :
    TraderState × Option TradeResult :=
  let result := base_result signal current_price symbol
  if check_circuit_breaker s now = false then
    (s, some { result with action := "BLOCKED_BY_CIRCUIT_BREAKER", blocked := true })
  else if signal = "HOLD" then
    (s, some { result with action := "HOLD" })
  else if signal = "BUY" ∧ (s.positions.lookup symbol).isNone then
    let size_usd := min TRADE_SIZE_USD s.balance
    if size_usd ≤ 0 then
      (s, some { result with action := "INSUFFICIENT_BALANCE" })
    else
      ({ s with
          positions := s.positions ++ [(symbol, ⟨"BUY", current_price, size_usd⟩)]
          balance := s.balance - size_usd },
       some { result with
              action := "OPENED_LONG"
              size_usd := some size_usd })
  else
    match s.positions.lookup symbol with
    | some pos =>
      if signal = "SELL" then
        let pnl := simulate_pnl pos.entry current_price pos.size_usd pos.side
        let balance := s.balance + pos.size_usd + pnl
        if journal_ok then
          let logged := log_trade "SELL" current_price pos.size_usd pnl now s.db
          ({ s with
              balance := balance
              db := logged.1
              positions := s.positions.filter (fun q => q.1 ≠ symbol) },
           some { result with
                  action := "CLOSED_LONG"
                  pnl := pnl
                  trade_id := some logged.2 })
        else
          ({ s with balance := balance }, none)
      else
        (s, some { result with action := "NO_ACTION" })
    | none => (s, some { result with action := "NO_ACTION" })

/-- `execute_trade` with the journal write succeeding (the normal run). -/
def execute_trade (s : TraderState) (now : ℚ) (signal : String)
    (current_price : ℚ) (symbol : String) : TraderState × Option TradeResult :=
  execute_trade_f true s now signal current_price symbol

/-- `PaperTrader.__init__` plus `init_db` seeding: full initial balance,
no positions, zero losses, no cooldown, empty journal. -/
def initial_state : TraderState :=
  { balance := INITIAL_BALANCE_USD
    positions := []
    db := { journal := []
            breaker := { consecutive_losses := 0, cooldown_until := none } } }

/- ── C3 ──────────────────────────────────────────────────────── -/

/-- C3: the circuit-breaker gate refuses iff the current time is before
`cooldown_until` OR `consecutive_losses ≥ 3`, each condition blocking on
its own; and whenever it refuses, `execute_trade` returns the BLOCKED
result for every signal and symbol with the trader state — balance,
positions, journal and breaker — exactly unchanged. -/
theorem circuit_breaker_gate (s : TraderState) (now : ℚ) :
    (check_circuit_breaker s now = false ↔
      ((∃ cd, s.db.breaker.cooldown_until = some cd ∧ now < cd) ∨
        3 ≤ s.db.breaker.consecutive_losses)) ∧
    (∀ signal price symbol, check_circuit_breaker s now = false →
      execute_trade s now signal price symbol =
        (s, some { base_result signal price symbol with
                   action := "BLOCKED_BY_CIRCUIT_BREAKER"
                   blocked := true })) := by
  constructor
  · unfold check_circuit_breaker is_on_cooldown get_consecutive_losses
    cases hcd : s.db.breaker.cooldown_until with
    | none =>
      by_cases hl : 3 ≤ s.db.breaker.consecutive_losses <;> simp [hl]
    | some cd =>
      by_cases hnow : now < cd
      · simp [hnow]
      · by_cases hl : 3 ≤ s.db.breaker.consecutive_losses <;> simp [hnow, hl]
  · intro signal price symbol hblk
    simp [execute_trade, execute_trade_f, hblk]

/-- A trader whose loss counter sits at the limit, with no cooldown
timestamp, used as C3 witness data. -/
def blocked_state : TraderState :=
  { balance := INITIAL_BALANCE_USD
    positions := []
    db := { journal := []
            breaker := { consecutive_losses := 3, cooldown_until := none } } }

/-- Witness for C3: at the limit loss counter (no cooldown set), a BUY is
returned BLOCKED with the state untouched. -/
theorem circuit_breaker_gate_witness :
    execute_trade blocked_state 0 "BUY" 50000 "BTCUSDT" =
      (blocked_state, some { base_result "BUY" 50000 "BTCUSDT" with
                             action := "BLOCKED_BY_CIRCUIT_BREAKER"
                             blocked := true }) :=
  (circuit_breaker_gate blocked_state 0).2 "BUY" 50000 "BTCUSDT" (by decide)

/- ── C4 ──────────────────────────────────────────────────────── -/

theorem log_trade_breaker_eq (side : String) (price size pnl now : ℚ) (db : DbState) :
    (log_trade side price size pnl now db).1.breaker =
      if pnl < 0 then
        (if 3 ≤ db.breaker.consecutive_losses + 1 then
          ⟨db.breaker.consecutive_losses + 1, some (now + 24)⟩
        else ⟨db.breaker.consecutive_losses + 1, db.breaker.cooldown_until⟩)
      else ⟨0, db.breaker.cooldown_until⟩ := rfl

/-- C4: every closed trade logged through the journal drives the breaker
state machine: a losing close increments `consecutive_losses` by exactly
one, and when the incremented value reaches the maximum of 3 it sets
`cooldown_until = now + 24` hours (otherwise leaves it alone); a winning
or break-even close resets the counter to 0 and does not extend the
cooldown. The record is appended to the journal. -/
theorem log_trade_breaker_machine (side : String) (price size pnl now : ℚ) (db : DbState) :
    ((log_trade side price size pnl now db).1.journal
        = db.journal ++ [⟨side, price, size, pnl⟩]) ∧
    (pnl < 0 →
      (log_trade side price size pnl now db).1.breaker.consecutive_losses
          = db.breaker.consecutive_losses + 1 ∧
      (3 ≤ db.breaker.consecutive_losses + 1 →
        (log_trade side price size pnl now db).1.breaker.cooldown_until
            = some (now + 24)) ∧
      (db.breaker.consecutive_losses + 1 < 3 →
        (log_trade side price size pnl now db).1.breaker.cooldown_until
            = db.breaker.cooldown_until)) ∧
    (0 ≤ pnl →
      (log_trade side price size pnl now db).1.breaker.consecutive_losses = 0 ∧
      (log_trade side price size pnl now db).1.breaker.cooldown_until
          = db.breaker.cooldown_until) := by
  refine ⟨rfl, ?_, ?_⟩
  · intro hneg
    rw [log_trade_breaker_eq, if_pos hneg]
    by_cases h3 : 3 ≤ db.breaker.consecutive_losses + 1
    · rw [if_pos h3]
      exact ⟨rfl, fun _ => rfl, fun hc => absurd h3 (by omega)⟩
    · rw [if_neg h3]
      exact ⟨rfl, fun hc => absurd hc h3, fun _ => rfl⟩
  · intro hpos
    rw [log_trade_breaker_eq, if_neg (not_lt.mpr hpos)]
    exact ⟨rfl, rfl⟩

/-- Witness for C4: the third consecutive losing close trips the breaker
and stamps the cooldown. -/
theorem log_trade_breaker_machine_witness :
    (log_trade "SELL" 100 100 (-5) 0
        ⟨[], ⟨2, none⟩⟩).1.breaker.consecutive_losses = 2 + 1 ∧
    (log_trade "SELL" 100 100 (-5) 0
        ⟨[], ⟨2, none⟩⟩).1.breaker.cooldown_until = some (0 + 24) :=
  ⟨((log_trade_breaker_machine "SELL" 100 100 (-5) 0 ⟨[], ⟨2, none⟩⟩).2.1
      (by norm_num)).1,
   ((log_trade_breaker_machine "SELL" 100 100 (-5) 0 ⟨[], ⟨2, none⟩⟩).2.1
      (by norm_num)).2.1 (by norm_num)⟩

/- ── C5 ──────────────────────────────────────────────────────── -/

/-- An open BTCUSDT position after one opening BUY, used as C5 data. -/
def c5_state : TraderState :=
  { balance := 9900
    positions := [("BTCUSDT", ⟨"BUY", 50000, 100⟩)]
    db := { journal := []
            breaker := { consecutive_losses := 0, cooldown_until := none } } }

/-- C5 is a code bug: closing a position is not atomic. `execute_trade`
credits `self.balance += size_usd + pnl` before calling `log_trade`;
when the journal write fails, the exception propagates after that credit
and before the position removal, so the balance is already changed while
the position, journal and breaker are untouched — neither all of the
close was applied nor none of it. Concretely: SELL BTCUSDT at 49000
against entry 50000 / size 100 (pnl = −2) with the journal failing moves
the balance 9900 → 9998 and changes nothing else. -/
theorem close_not_atomic :
    (execute_trade_f false c5_state 0 "SELL" 49000 "BTCUSDT").2 = none ∧
    (execute_trade_f false c5_state 0 "SELL" 49000 "BTCUSDT").1.balance = 9998 ∧
    c5_state.balance = 9900 ∧
    (execute_trade_f false c5_state 0 "SELL" 49000 "BTCUSDT").1.positions
        = c5_state.positions ∧
    (execute_trade_f false c5_state 0 "SELL" 49000 "BTCUSDT").1.db = c5_state.db := by
  refine ⟨rfl, ?_, rfl, rfl, rfl⟩
  have hb : (execute_trade_f false c5_state 0 "SELL" 49000 "BTCUSDT").1.balance =
      9900 + 100 + (49000 - 50000) / 50000 * 100 := rfl
  rw [hb]
  norm_num

/- ── C8 ──────────────────────────────────────────────────────── -/

/-- One `execute_trade` call of a run: its wall-clock time, signal,
price and symbol. -/
structure TradeCall where
  now : ℚ
  signal : String
  price : ℚ
  symbol : String

/-- A sequence of `execute_trade` calls against a trader. -/
def run_calls (s : TraderState) : List TradeCall → TraderState
  | [] => s
  | c :: rest => run_calls (execute_trade s c.now c.signal c.price c.symbol).1 rest

/-- The price discipline C8 assumes: BUY prices are positive and SELL
prices are non-negative. -/
def ok_call (c : TradeCall) : Prop :=
  (c.signal = "BUY" → 0 < c.price) ∧ (c.signal = "SELL" → 0 ≤ c.price)

/-- The preserved portfolio invariant: non-negative cash and every open
position long, with positive entry and size capped by the configured
trade size. -/
def trader_inv (s : TraderState) : Prop :=
  0 ≤ s.balance ∧ ∀ q ∈ s.positions,
    q.2.side = "BUY" ∧ 0 < q.2.entry ∧ 0 < q.2.size_usd ∧ q.2.size_usd ≤ TRADE_SIZE_USD

theorem lookup_mem (l : List (String × Position)) (k : String) (v : Position) :
    l.lookup k = some v → (k, v) ∈ l := by
  induction l with
  | nil => intro h; simp [List.lookup] at h
  | cons q t ih =>
    obtain ⟨k2, v2⟩ := q
    intro h
    simp only [List.lookup] at h
    by_cases hk : k == k2
    · rw [hk] at h
      simp only [Option.some.injEq] at h
      have hkk : k = k2 := eq_of_beq hk
      rw [← h, ← hkk]
      exact List.mem_cons_self _ _
    · rw [Bool.not_eq_true] at hk
      rw [hk] at h
      exact List.mem_cons_of_mem _ (ih h)

theorem execute_trade_preserves_inv (s : TraderState) (c : TradeCall)
    (hs : trader_inv s) (hc : ok_call c) :
    trader_inv (execute_trade s c.now c.signal c.price c.symbol).1 := by
  obtain ⟨hbal, hpos⟩ := hs
  unfold execute_trade execute_trade_f
  by_cases hck : check_circuit_breaker s c.now = false
  · rw [if_pos hck]; exact ⟨hbal, hpos⟩
  · rw [if_neg hck]
    by_cases hh : c.signal = "HOLD"
    · rw [if_pos hh]; exact ⟨hbal, hpos⟩
    · rw [if_neg hh]
      by_cases hb : c.signal = "BUY" ∧ (s.positions.lookup c.symbol).isNone
      · rw [if_pos hb]
        by_cases hsz : min TRADE_SIZE_USD s.balance ≤ 0
        · rw [if_pos hsz]; exact ⟨hbal, hpos⟩
        · rw [if_neg hsz]
          push_neg at hsz
          constructor
          · show 0 ≤ s.balance - min TRADE_SIZE_USD s.balance
            have := min_le_right TRADE_SIZE_USD s.balance
            linarith
          · intro q hq
            rw [List.mem_append] at hq
            rcases hq with hq | hq
            · exact hpos q hq
            · rw [List.mem_singleton] at hq
              subst hq
              exact ⟨rfl, hc.1 hb.1, hsz, min_le_left _ _⟩
      · rw [if_neg hb]
        cases hlk : s.positions.lookup c.symbol with
        | none => exact ⟨hbal, hpos⟩
        | some pos =>
          dsimp only
          by_cases hsell : c.signal = "SELL"
          · rw [if_pos hsell]
            have hmem := lookup_mem s.positions c.symbol pos hlk
            obtain ⟨hside, hentry, hsize, hcap⟩ := hpos (c.symbol, pos) hmem
            have hprice : 0 ≤ c.price := hc.2 hsell
            have hpnl : -pos.size_usd ≤
                simulate_pnl pos.entry c.price pos.size_usd pos.side := by
              unfold simulate_pnl
              rw [if_pos hside]
              have hdiv : (-1 : ℚ) ≤ (c.price - pos.entry) / pos.entry := by
                rw [le_div_iff₀ hentry]
                linarith
              nlinarith
            constructor
            · show 0 ≤ s.balance + pos.size_usd +
                  simulate_pnl pos.entry c.price pos.size_usd pos.side
              linarith
            · intro q hq
              exact hpos q (List.mem_of_mem_filter hq)
          · rw [if_neg hsell]; exact ⟨hbal, hpos⟩

theorem run_calls_inv (calls : List TradeCall) :
    ∀ s, trader_inv s → (∀ c ∈ calls, ok_call c) → trader_inv (run_calls s calls) := by
  induction calls with
  | nil => intro s hs _; exact hs
  | cons c t ih =>
    intro s hs hc
    simp only [run_calls]
    exact ih _ (execute_trade_preserves_inv s c hs (hc c (List.mem_cons_self c t)))
      (fun d hd => hc d (List.mem_cons_of_mem c hd))

/-- C8: a BUY open chooses size = min(configured trade size, balance) and
refuses with INSUFFICIENT_BALANCE (a no-op) when that size is ≤ 0; and
along every sequence of `execute_trade` calls with positive BUY prices
and non-negative SELL prices, the balance stays ≥ 0 after every call and
every open position's size never exceeds the configured trade size. -/
theorem sizing_guard_and_balance :
    (∀ (s : TraderState) (now price : ℚ) (symbol : String),
      check_circuit_breaker s now = true →
      (s.positions.lookup symbol).isNone →
      (min TRADE_SIZE_USD s.balance ≤ 0 →
        execute_trade s now "BUY" price symbol =
          (s, some { base_result "BUY" price symbol with
                     action := "INSUFFICIENT_BALANCE" })) ∧
      (0 < min TRADE_SIZE_USD s.balance →
        execute_trade s now "BUY" price symbol =
          ({ s with
              positions := s.positions ++
                [(symbol, ⟨"BUY", price, min TRADE_SIZE_USD s.balance⟩)]
              balance := s.balance - min TRADE_SIZE_USD s.balance },
           some { base_result "BUY" price symbol with
                  action := "OPENED_LONG"
                  size_usd := some (min TRADE_SIZE_USD s.balance) }))) ∧
    (∀ calls : List TradeCall, (∀ c ∈ calls, ok_call c) →
      0 ≤ (run_calls initial_state calls).balance ∧
      ∀ q ∈ (run_calls initial_state calls).positions,
        q.2.size_usd ≤ TRADE_SIZE_USD) := by
  constructor
  · intro s now price symbol hck hnone
    have hck2 : ¬ check_circuit_breaker s now = false := by rw [hck]; simp
    constructor
    · intro hsz
      unfold execute_trade execute_trade_f
      rw [if_neg hck2, if_neg (by simp : ¬ ("BUY" : String) = "HOLD"),
        if_pos ⟨rfl, hnone⟩, if_pos hsz]
    · intro hsz
      unfold execute_trade execute_trade_f
      rw [if_neg hck2, if_neg (by simp : ¬ ("BUY" : String) = "HOLD"),
        if_pos ⟨rfl, hnone⟩, if_neg (not_le.mpr hsz)]
  · intro calls hok
    have hinit : trader_inv initial_state := by
      constructor
      · show (0:ℚ) ≤ INITIAL_BALANCE_USD
        norm_num [INITIAL_BALANCE_USD]
      · intro q hq
        simp [initial_state] at hq
    have := run_calls_inv calls initial_state hinit hok
    exact ⟨this.1, fun q hq => (this.2 q hq).2.2.2⟩

/-- Witness for C8: a single BUY call from the initial state keeps the
balance non-negative and the opened position within the size cap. -/
theorem sizing_guard_and_balance_witness :
    0 ≤ (run_calls initial_state [⟨0, "BUY", 50000, "BTCUSDT"⟩]).balance ∧
    ∀ q ∈ (run_calls initial_state [⟨0, "BUY", 50000, "BTCUSDT"⟩]).positions,
      q.2.size_usd ≤ TRADE_SIZE_USD :=
  sizing_guard_and_balance.2 [⟨0, "BUY", 50000, "BTCUSDT"⟩]
    (by
      intro c hc
      rw [List.mem_singleton] at hc
      subst hc
      exact ⟨fun _ => by norm_num, fun _ => by norm_num⟩)

/- ── main.py : run_cycle ─────────────────────────────────────── -/

/-- The pipeline stages a per-symbol cycle may enter, in order:
ADX/regime (step 2), RSI (step 3), Bollinger (step 3), signal
generation (step 6), trade execution (step 7). -/
inductive CycleStep
  | adx_step
  | rsi_step
  | boll_step
  | signal_step
  | execute_step
deriving DecidableEq, Repr

/-- main.py `run_cycle` for one symbol, given the already-fetched
candles and auxiliary feed values (step 1 and steps 4–5 are external
fetches). `none` as the returned action models an uncaught exception:
insufficient data in an indicator, or the `TypeError` of the
five-argument `generate_signal` call at step 6. Of `compute_bollinger`
only the failure condition (fewer than `BB_PERIOD` closes) can affect
the cycle — its numeric bands are logged, not used — so the model
checks exactly that guard. The trace lists the stages entered. -/
def run_cycle (trader : TraderState) (now : ℚ) (symbol : String)
    (highs lows closes : List ℚ) (lsr whale_vol : ℚ) (sentiment : String) :
    TraderState × Option String × List CycleStep :=
  match compute_adx highs lows closes ADX_PERIOD with
  | none => (trader, none, [CycleStep.adx_step])
  | some adx =>
    if get_market_regime adx = "CHOPPY" then
      (trader, some "SKIP_CHOPPY", [CycleStep.adx_step])
    else
      match compute_rsi closes RSI_PERIOD with
      | none => (trader, none, [CycleStep.adx_step, CycleStep.rsi_step])
      | some rsi =>
        if closes.length < BB_PERIOD then
          (trader, none,
            [CycleStep.adx_step, CycleStep.rsi_step, CycleStep.boll_step])
        else
          match generate_signal_call_site rsi lsr whale_vol
              (get_market_regime adx) sentiment with
          | none =>
            (trader, none,
              [CycleStep.adx_step, CycleStep.rsi_step, CycleStep.boll_step,
                CycleStep.signal_step])
          | some signal =>
            let r := execute_trade trader now signal (closes.getLastD 0) symbol
            (r.1, (r.2).map (fun t => t.action),
              [CycleStep.adx_step, CycleStep.rsi_step, CycleStep.boll_step,
                CycleStep.signal_step, CycleStep.execute_step])

/- ── C10 ─────────────────────────────────────────────────────── -/

/-- C10: whenever the computed regime is CHOPPY, the cycle returns the
SKIP_CHOPPY result right after the ADX stage — before RSI is computed,
before generate_signal is called and before execute_trade is called —
with the trader state unchanged; the execute stage is only ever entered
when the regime is TRENDING, so no SELL exit is executed during a CHOPPY
cycle, and a position can leave the portfolio only when the regime is
TRENDING. -/
theorem run_cycle_choppy_skips (trader : TraderState) (now : ℚ) (symbol : String)
    (highs lows closes : List ℚ) (lsr whale_vol : ℚ) (sentiment : String)
    (adx : ℚ) (hadx : compute_adx highs lows closes ADX_PERIOD = some adx) :
    (get_market_regime adx = "CHOPPY" →
      run_cycle trader now symbol highs lows closes lsr whale_vol sentiment =
        (trader, some "SKIP_CHOPPY", [CycleStep.adx_step])) ∧
    (CycleStep.execute_step ∈
        (run_cycle trader now symbol highs lows closes lsr whale_vol sentiment).2.2 →
      get_market_regime adx = "TRENDING") ∧
    (∀ q ∈ trader.positions,
      q ∉ (run_cycle trader now symbol highs lows closes lsr whale_vol
        sentiment).1.positions →
      get_market_regime adx = "TRENDING") := by
  have hreg : get_market_regime adx = "TRENDING" ∨ get_market_regime adx = "CHOPPY" := by
    unfold get_market_regime
    split <;> simp
  by_cases hch : get_market_regime adx = "CHOPPY"
  · have heq : run_cycle trader now symbol highs lows closes lsr whale_vol sentiment =
        (trader, some "SKIP_CHOPPY", [CycleStep.adx_step]) := by
      unfold run_cycle
      rw [hadx]
      dsimp only
      rw [if_pos hch]
    refine ⟨fun _ => heq, fun hmem => ?_, fun q hq hnq => ?_⟩
    · rw [heq] at hmem
      simp at hmem
    · rw [heq] at hnq
      exact absurd hq hnq
  · have ht : get_market_regime adx = "TRENDING" := hreg.resolve_right hch
    have heq1 : (run_cycle trader now symbol highs lows closes lsr whale_vol
          sentiment).1 = trader ∧
        CycleStep.execute_step ∉ (run_cycle trader now symbol highs lows closes lsr
          whale_vol sentiment).2.2 := by
      unfold run_cycle
      rw [hadx]
      dsimp only
      rw [if_neg hch]
      cases compute_rsi closes RSI_PERIOD with
      | none => exact ⟨rfl, by simp⟩
      | some rsi =>
        dsimp only
        by_cases hbb : closes.length < BB_PERIOD
        · rw [if_pos hbb]
          exact ⟨rfl, by simp⟩
        · rw [if_neg hbb]
          exact ⟨rfl, by simp [generate_signal_call_site]⟩
    refine ⟨fun h => absurd h hch, fun _ => ht, fun q hq hnq => ht⟩

/-- A flat 29-bar series: ADX is defined (29 = 2·14+1 bars) and comes
out 0, a CHOPPY regime. Witness data for C10. -/
def flat29 : List ℚ := List.replicate 29 0

set_option maxRecDepth 4000 in
theorem flat29_adx : compute_adx flat29 flat29 flat29 ADX_PERIOD = some 0 := by
  norm_num [flat29, compute_adx, dx_list, tr_list, plus_dm_list, minus_dm_list,
    bar_steps, bars, wilder_smooth, wilder_smooth_aux, dx_of, wilder_step,
    true_range, plus_dm_of, minus_dm_of, ADX_PERIOD, List.replicate]

/-- Witness for C10: on the flat series the regime is CHOPPY and the
cycle returns SKIP_CHOPPY with the trader untouched. -/
theorem run_cycle_choppy_skips_witness :
    run_cycle initial_state 0 "BTCUSDT" flat29 flat29 flat29 1 0 "NEUTRAL" =
      (initial_state, some "SKIP_CHOPPY", [CycleStep.adx_step]) :=
  (run_cycle_choppy_skips initial_state 0 "BTCUSDT" flat29 flat29 flat29 1 0
      "NEUTRAL" 0 flat29_adx).1
    (by norm_num [get_market_regime, ADX_THRESHOLD])
